import Mathlib

/-!
Verification of the RevPop market/matching engine (`database::match`,
`database::apply_order`, `database::fill_limit_order`, `database::fill_call_order`,
`database::globally_settle_asset`, `database::revive_bitasset`,
`database::cancel_limit_order`, `asset_settle_evaluator::do_apply`) against its
natural-language specification.

Share amounts are modelled as natural numbers: every amount handled by the engine
paths treated here is non-negative (the entry assertions of the source functions
require strictly positive `for_sale`, `debt`, `collateral`, `balance`), and the
source performs the price arithmetic in unsigned 128-bit intermediates.
-/

namespace RevPop

/-! ### Price arithmetic

Modelled from the spec: the implementation of `asset operator*(asset, price)`
(round-down) and `asset::multiply_and_round_up(price)` is not among the provided
source files; §3/§4.1 of the spec describe a price as an unreduced pair
`(base, quote)` with a round-down and a round-up multiplication and ordering by
cross-multiplication.  An amount `a` sitting in the leg with amount `den` is
converted to the other leg (amount `num`) by `a * num / den`, rounded down or up.
-/

/-- Modelled from the spec: round-down price multiplication (`asset * price`).
`a` is an amount in the `den` leg of the price; the result is in the `num` leg. -/
def mulDown (a num den : ℕ) : ℕ := a * num / den

/-- Modelled from the spec: round-up price multiplication
(`asset::multiply_and_round_up(price)`). -/
def mulUp (a num den : ℕ) : ℕ := (a * num + den - 1) / den

theorem mulDown_le_iff {a num den m : ℕ} (hden : 0 < den) :
    mulDown a num den ≤ m ↔ a * num ≤ den * m + (den - 1) := by
  unfold mulDown
  exact Nat.div_le_iff_le_mul_add_pred hden

theorem mulUp_le_iff {a num den m : ℕ} (hden : 0 < den) :
    mulUp a num den ≤ m ↔ a * num ≤ den * m := by
  unfold mulUp
  rw [Nat.div_le_iff_le_mul_add_pred hden]
  omega

theorem le_mulUp_mul {a num den : ℕ} (hden : 0 < den) :
    a * num ≤ den * mulUp a num den :=
  (mulUp_le_iff hden).mp le_rfl

theorem mulDown_mul_le (a num den : ℕ) :
    mulDown a num den * den ≤ a * num := Nat.div_mul_le_self _ _

/-- Round-up after round-down never exceeds the original amount: converting `a`
to the other leg rounding down and back rounding up gives at most `a`. -/
theorem mulUp_mulDown_le {a num den : ℕ} (hnum : 0 < num) :
    mulUp (mulDown a num den) den num ≤ a := by
  rw [mulUp_le_iff hnum]
  calc mulDown a num den * den ≤ a * num := mulDown_mul_le a num den
    _ = num * a := Nat.mul_comm _ _

/-- `mulDown` is monotone in the price: a price offering at most as much of the
target leg per source-leg unit (by cross-multiplication) yields at most as much. -/
theorem mulDown_mono_price {a n₁ d₁ n₂ d₂ : ℕ} (hd₁ : 0 < d₁) (hd₂ : 0 < d₂)
    (h : n₁ * d₂ ≤ n₂ * d₁) : mulDown a n₁ d₁ ≤ mulDown a n₂ d₂ := by
  unfold mulDown
  rw [Nat.le_div_iff_mul_le hd₂]
  have h1 : a * n₁ / d₁ * d₂ * d₁ ≤ a * n₂ * d₁ := by
    have h2 : a * n₁ / d₁ * d₁ ≤ a * n₁ := Nat.div_mul_le_self _ _
    calc a * n₁ / d₁ * d₂ * d₁ = a * n₁ / d₁ * d₁ * d₂ := by ring
      _ ≤ a * n₁ * d₂ := Nat.mul_le_mul_right d₂ h2
      _ = a * (n₁ * d₂) := by ring
      _ ≤ a * (n₂ * d₁) := Nat.mul_le_mul_left a h
      _ = a * n₂ * d₁ := by ring
  exact Nat.le_of_mul_le_mul_right h1 hd₁

/-- `mulUp` is monotone in the price, by cross-multiplication. -/
theorem mulUp_mono_price {a n₁ d₁ n₂ d₂ : ℕ} (hd₁ : 0 < d₁) (hd₂ : 0 < d₂)
    (h : n₁ * d₂ ≤ n₂ * d₁) : mulUp a n₁ d₁ ≤ mulUp a n₂ d₂ := by
  rw [mulUp_le_iff hd₁]
  have h2 : a * n₂ ≤ d₂ * mulUp a n₂ d₂ := le_mulUp_mul hd₂
  have h3 : d₂ * (a * n₁) ≤ d₂ * (d₁ * mulUp a n₂ d₂) := by
    calc d₂ * (a * n₁) = a * (n₁ * d₂) := by ring
      _ ≤ a * (n₂ * d₁) := Nat.mul_le_mul_left a h
      _ = (a * n₂) * d₁ := by ring
      _ ≤ (d₂ * mulUp a n₂ d₂) * d₁ := Nat.mul_le_mul_right d₁ h2
      _ = d₂ * (d₁ * mulUp a n₂ d₂) := by ring
  exact Nat.le_of_mul_le_mul_left h3 hd₂

/-! ### Limit orders, `fill_limit_order`, and `match(limit, limit)`

A limit order sells its `forSale` amount (held in the base leg of its own
`sell_price`); `priceBase` / `priceQuote` are the amounts of that price.
`amount_to_receive()` is `amount_for_sale() * sell_price`, rounded down.
The embedding of `fill_limit_order` keeps the book-shaped effects the
matching claims are about (order shrinking/removal and the returned
"completely filled" flag); balance transfers are exactly the `pays`/`receives`
amounts computed by the callers below, and deferred-fee routing is treated
separately with `cancel_limit_order`. -/

structure LimitOrder where
  forSale : ℕ
  priceBase : ℕ
  priceQuote : ℕ
  deriving Repr, DecidableEq

/-- `limit_order_object::amount_to_receive()`: `for_sale * sell_price`,
rounded down (the order's own price, base leg → quote leg). -/
def LimitOrder.amountToReceive (o : LimitOrder) : ℕ :=
  mulDown o.forSale o.priceQuote o.priceBase

/-- `database::fill_limit_order` (book effects): if `pays` equals the whole
`for_sale`, the order is removed and the call returns `true`; otherwise
`for_sale` is decremented, and when `cull_if_small` is set a now-dust order
(`amount_to_receive() == 0`, the `maybe_cull_small_order` test) is cancelled,
returning `true`.  First component: the returned flag; second: the surviving
order, if any. -/
def fillLimitOrder (o : LimitOrder) (pays : ℕ) (cullIfSmall : Bool) :
    Bool × Option LimitOrder :=
  if pays = o.forSale then (true, none)
  else
    let o' : LimitOrder := { o with forSale := o.forSale - pays }
    if cullIfSmall ∧ o'.amountToReceive = 0 then (true, none)
    else (false, some o')

/-- Result of `database::match(limit, limit, match_price)`: the four transfer
amounts (all zero on the pay-nothing-for-nothing early return), the
`cull_taker` flag, and the returned bit field. -/
structure MatchLLResult where
  usdPays : ℕ
  usdReceives : ℕ
  corePays : ℕ
  coreReceives : ℕ
  cullTaker : Bool
  result : ℕ
  deriving Repr, DecidableEq

/-- `database::match(limit_order_object usd, limit_order_object core, price)`.
`usd` is the taker, `core` the maker.  The match price is the pair
`(mb, mq)`: `mb` in the maker's sell asset (the price's base leg), `mq` in the
taker's sell asset (its quote leg), as asserted at the function's entry.
So `core_for_sale * match_price = mulDown core.forSale mq mb`,
`usd_for_sale * match_price = mulDown usd.forSale mb mq`, and
`multiply_and_round_up` is the corresponding `mulUp`. -/
def matchLimitLimit (usd core : LimitOrder) (mb mq : ℕ) : MatchLLResult :=
  let usdForSale := usd.forSale
  let coreForSale := core.forSale
  if usdForSale ≤ mulDown coreForSale mq mb then
    let usdReceives := mulDown usdForSale mb mq
    if usdReceives = 0 then
      ⟨0, 0, 0, 0, false, 1⟩
    else
      let coreReceives := mulUp usdReceives mq mb
      let corePays := usdReceives
      let usdPays := coreReceives
      let fTaker := (fillLimitOrder usd usdPays true).1
      let fMaker := (fillLimitOrder core corePays true).1
      ⟨usdPays, usdReceives, corePays, coreReceives, true,
        (if fTaker then 1 else 0) + (if fMaker then 2 else 0)⟩
  else
    let coreReceives := mulDown coreForSale mq mb
    let usdReceives := mulUp coreReceives mb mq
    let corePays := usdReceives
    let usdPays := coreReceives
    let fTaker := (fillLimitOrder usd usdPays false).1
    let fMaker := (fillLimitOrder core corePays true).1
    ⟨usdPays, usdReceives, corePays, coreReceives, false,
      (if fTaker then 1 else 0) + (if fMaker then 2 else 0)⟩

/-- A filled-or-culled fill: when `pays` does not exceed `for_sale` and the
remainder would receive nothing at the order's own price, `fill_limit_order`
with `cull_if_small` reports the order as gone. -/
theorem fillLimitOrder_true_of_dust (o : LimitOrder) (pays : ℕ)
    (hdust : (o.forSale - pays) * o.priceQuote < o.priceBase) :
    (fillLimitOrder o pays true).1 = true := by
  unfold fillLimitOrder
  split
  · rfl
  · simp [LimitOrder.amountToReceive, mulDown, Nat.div_eq_of_lt hdust]

/-- After paying out the round-up of the round-down of `x`, the remainder of
`x` converts to `0` at the `(n, d)` rate: `(x - ⌈⌊x·n/d⌋·d/n⌉)·n < d`. -/
theorem remainder_mul_lt (x n d : ℕ) (hn : 0 < n) (hd : 0 < d) :
    (x - mulUp (mulDown x n d) d n) * n < d := by
  have h1 : mulDown x n d * d ≤ n * mulUp (mulDown x n d) d n := le_mulUp_mul hn
  have h1' : mulDown x n d * d ≤ mulUp (mulDown x n d) d n * n := by
    rw [Nat.mul_comm n] at h1; exact h1
  have h2 : d * mulDown x n d + (x * n) % d = x * n := Nat.div_add_mod (x * n) d
  have h2' : mulDown x n d * d + (x * n) % d = x * n := by
    rw [Nat.mul_comm d] at h2; exact h2
  have h3 : (x * n) % d < d := Nat.mod_lt _ hd
  have hpx : mulUp (mulDown x n d) d n ≤ x := mulUp_mulDown_le hn
  rw [Nat.sub_mul]
  omega

/-- C1: `match(new_limit taker, existing_limit maker, match_price)` with both
`for_sale` amounts positive.  If `taker_for_sale ≤ maker_for_sale * match_price`
(round down) then `taker_receives = taker_for_sale * match_price` (round down);
if that is `0` the function returns `1` with nothing transferred; otherwise
`maker_receives = taker_receives.multiply_and_round_up(match_price)` and the
taker is culled-if-small.  In the other branch
`maker_receives = maker_for_sale * match_price` (round down) and
`taker_receives = maker_receives.multiply_and_round_up(match_price)`.  In every
case `taker_pays = maker_receives` and `maker_pays = taker_receives`, and the
returned bit field is nonzero (at least one order is completely consumed).  The
price hypotheses record how `apply_order` invokes this function: the match
price is the maker's own sell price, and it is no worse than the inverse of the
taker's sell price. -/
theorem match_limit_limit_spec (usd core : LimitOrder) (mb mq : ℕ)
    (husd : 0 < usd.forSale) (hcore : 0 < core.forSale)
    (hmb : 0 < mb) (hmq : 0 < mq)
    (hpb : core.priceBase = mb) (hpq : core.priceQuote = mq)
    (htb : 0 < usd.priceBase)
    (hcross : mq * usd.priceQuote ≤ mb * usd.priceBase) :
    (usd.forSale ≤ mulDown core.forSale mq mb →
        (matchLimitLimit usd core mb mq).usdReceives = mulDown usd.forSale mb mq ∧
        (mulDown usd.forSale mb mq = 0 →
          matchLimitLimit usd core mb mq = ⟨0, 0, 0, 0, false, 1⟩) ∧
        (mulDown usd.forSale mb mq ≠ 0 →
          (matchLimitLimit usd core mb mq).coreReceives
              = mulUp (mulDown usd.forSale mb mq) mq mb ∧
          (matchLimitLimit usd core mb mq).cullTaker = true ∧
          (matchLimitLimit usd core mb mq).usdPays
              = (matchLimitLimit usd core mb mq).coreReceives ∧
          (matchLimitLimit usd core mb mq).corePays
              = (matchLimitLimit usd core mb mq).usdReceives)) ∧
    (¬ usd.forSale ≤ mulDown core.forSale mq mb →
        (matchLimitLimit usd core mb mq).coreReceives = mulDown core.forSale mq mb ∧
        (matchLimitLimit usd core mb mq).usdReceives
            = mulUp (mulDown core.forSale mq mb) mb mq ∧
        (matchLimitLimit usd core mb mq).usdPays
            = (matchLimitLimit usd core mb mq).coreReceives ∧
        (matchLimitLimit usd core mb mq).corePays
            = (matchLimitLimit usd core mb mq).usdReceives) ∧
    (matchLimitLimit usd core mb mq).result ≠ 0 := by
  by_cases hbr : usd.forSale ≤ mulDown core.forSale mq mb
  · by_cases h0 : mulDown usd.forSale mb mq = 0
    · refine ⟨fun _ => ⟨?_, fun _ => ?_, fun hne => absurd h0 hne⟩,
        fun h => absurd hbr h, ?_⟩
      · simp [matchLimitLimit, hbr, h0]
      · simp [matchLimitLimit, hbr, h0]
      · simp [matchLimitLimit, hbr, h0]
    · -- main taker-side branch: the taker is always consumed
      have hT : (fillLimitOrder usd (mulUp (mulDown usd.forSale mb mq) mq mb)
          true).1 = true := by
        apply fillLimitOrder_true_of_dust
        -- (forSale - pays) * mb < mq, transported to the taker's own price
        have hrem : (usd.forSale -
            mulUp (mulDown usd.forSale mb mq) mq mb) * mb < mq :=
          remainder_mul_lt usd.forSale mb mq hmb hmq
        set rem := usd.forSale - mulUp (mulDown usd.forSale mb mq) mq mb
        have h1 : rem * usd.priceQuote * mq ≤ rem * mb * usd.priceBase := by
          calc rem * usd.priceQuote * mq = rem * (mq * usd.priceQuote) := by ring
            _ ≤ rem * (mb * usd.priceBase) := Nat.mul_le_mul_left rem hcross
            _ = rem * mb * usd.priceBase := by ring
        have h2 : rem * mb * usd.priceBase < mq * usd.priceBase :=
          Nat.mul_lt_mul_of_lt_of_le hrem le_rfl htb
        have h3 : rem * usd.priceQuote * mq < usd.priceBase * mq := by
          calc rem * usd.priceQuote * mq ≤ rem * mb * usd.priceBase := h1
            _ < mq * usd.priceBase := h2
            _ = usd.priceBase * mq := Nat.mul_comm _ _
        exact Nat.lt_of_mul_lt_mul_right h3
      refine ⟨fun _ => ⟨?_, fun h => absurd h h0, fun _ => ⟨?_, ?_, ?_, ?_⟩⟩,
        fun h => absurd hbr h, ?_⟩
      · simp [matchLimitLimit, hbr, h0]
      · simp [matchLimitLimit, hbr, h0]
      · simp [matchLimitLimit, hbr, h0]
      · simp [matchLimitLimit, hbr, h0]
      · simp [matchLimitLimit, hbr, h0]
      · simp [matchLimitLimit, hbr, h0, hT]
  · -- maker-side branch: the maker is always consumed
    have hM : (fillLimitOrder core (mulUp (mulDown core.forSale mq mb) mb mq)
        true).1 = true := by
      apply fillLimitOrder_true_of_dust
      rw [hpb, hpq]
      exact remainder_mul_lt core.forSale mq mb hmq hmb
    refine ⟨fun h => absurd h hbr, fun _ => ⟨?_, ?_, ?_, ?_⟩, ?_⟩
    · simp [matchLimitLimit, hbr]
    · simp [matchLimitLimit, hbr]
    · simp [matchLimitLimit, hbr]
    · simp [matchLimitLimit, hbr]
    · simp [matchLimitLimit, hbr, hM]

/-- Witness for `match_limit_limit_spec` at a concrete input: taker sells 5 USD
at 1 USD = 1 CORE, maker sells 10 CORE at 2 CORE = 1 USD; both sides fill. -/
theorem match_limit_limit_spec_witness :
    (0 : ℕ) < 5 ∧ (matchLimitLimit ⟨5, 1, 1⟩ ⟨10, 2, 1⟩ 2 1).result ≠ 0 :=
  ⟨by decide,
    (match_limit_limit_spec ⟨5, 1, 1⟩ ⟨10, 2, 1⟩ 2 1 (by decide) (by decide)
      (by decide) (by decide) (by decide) (by decide) (by decide)
      (by decide)).2.2⟩

/-! ### `match(call, settle, match_price, max_settlement, fill_price)`

The match price converts the debt asset to the collateral asset at the rate
`mpNum` collateral per `mpDen` debt (debt amounts sit in the `mpDen` leg). -/

/-- Result of `database::match(call_order, force_settlement, ...)`:
`covered` is the returned asset amount (the final `call_receives`; `0` on the
early dust returns), `filled` records whether the two `fill_*` calls were
executed, and `settleCancelled` whether `cancel_settle_order` removed the
settle order (dust case or final cull). -/
structure MatchCSResult where
  covered : ℕ
  callPays : ℕ
  callReceives : ℕ
  settlePays : ℕ
  settleReceives : ℕ
  filled : Bool
  settleCancelled : Bool
  deriving Repr, DecidableEq

/-- `database::match(call_order_object, force_settlement_object, match_price,
max_settlement, fill_price)`, translated branch for branch. -/
def matchCallSettle (callDebt callCollateral settleBalance maxSettlement
    mpNum mpDen : ℕ) : MatchCSResult :=
  let _ := callCollateral  -- only constrained by the entry assertion
  let settleForSale := min settleBalance maxSettlement
  let callReceives := min settleForSale callDebt
  let callPays := mulDown callReceives mpNum mpDen
  if callPays = 0 then
    if callReceives = callDebt then
      -- the call order is smaller than or equal to the settle order:
      -- bump call_pays to 1 and proceed
      ⟨callReceives, 1, callReceives, callReceives, 1, true, false⟩
    else if callReceives = settleBalance then
      -- the settle order is smaller: cancel it as dust, return 0
      ⟨0, 0, 0, 0, 0, false, true⟩
    else
      -- neither order would be completely filled: return 0, no state change
      ⟨0, 0, 0, 0, 0, false, false⟩
  else
    if callReceives = callDebt then
      let callPays2 := mulUp callReceives mpNum mpDen
      ⟨callReceives, callPays2, callReceives, callReceives, callPays2,
        true, false⟩
    else
      let cull0 := callReceives == settleBalance
      let callReceives2 := mulUp callPays mpDen mpNum
      let cull := if callReceives2 = settleBalance then false else cull0
      ⟨callReceives2, callPays, callReceives2, callReceives2, callPays,
        true, cull⟩

/-- C6: dust rule of `match(call, settle, match_price, max_settlement, ...)`.
When `call_pays = min(min(settle.balance, max_settlement), call.debt) *
match_price` rounds down to zero: (a) if the call is wholly taken
(`call_receives == call.debt`) then `call_pays` is bumped to exactly 1 unit and
the match proceeds; (b) otherwise, if `call_receives == settle.balance`, the
settle order is cancelled as dust and the function returns 0 without filling;
(c) otherwise the function returns 0 with no state change. -/
theorem match_call_settle_dust_rule (callDebt callCollateral settleBalance
    maxSettlement mpNum mpDen : ℕ)
    (hdebt : 0 < callDebt) (hcoll : 0 < callCollateral)
    (hbal : 0 < settleBalance)
    (hdust : mulDown (min (min settleBalance maxSettlement) callDebt)
        mpNum mpDen = 0) :
    (min (min settleBalance maxSettlement) callDebt = callDebt →
        matchCallSettle callDebt callCollateral settleBalance maxSettlement
            mpNum mpDen =
          ⟨callDebt, 1, callDebt, callDebt, 1, true, false⟩) ∧
    (min (min settleBalance maxSettlement) callDebt ≠ callDebt →
      min (min settleBalance maxSettlement) callDebt = settleBalance →
        matchCallSettle callDebt callCollateral settleBalance maxSettlement
            mpNum mpDen = ⟨0, 0, 0, 0, 0, false, true⟩) ∧
    (min (min settleBalance maxSettlement) callDebt ≠ callDebt →
      min (min settleBalance maxSettlement) callDebt ≠ settleBalance →
        matchCallSettle callDebt callCollateral settleBalance maxSettlement
            mpNum mpDen = ⟨0, 0, 0, 0, 0, false, false⟩) := by
  refine ⟨fun hc => ?_, fun hc hs => ?_, fun hc hs => ?_⟩
  · show (if mulDown (min (min settleBalance maxSettlement) callDebt)
        mpNum mpDen = 0 then _ else _) = _
    rw [if_pos hdust, if_pos hc, hc]
  · show (if mulDown (min (min settleBalance maxSettlement) callDebt)
        mpNum mpDen = 0 then _ else _) = _
    rw [if_pos hdust, if_neg hc, if_pos hs]
  · show (if mulDown (min (min settleBalance maxSettlement) callDebt)
        mpNum mpDen = 0 then _ else _) = _
    rw [if_pos hdust, if_neg hc, if_neg hs]

/-- Witness for `match_call_settle_dust_rule`: debt 5, collateral 10, settle
balance 3, cap 100, price 1 collateral per 10 debt; the settle order is the
smaller side and is cancelled as dust. -/
theorem match_call_settle_dust_rule_witness :
    mulDown (min (min 3 100) 5) 1 10 = 0 ∧
    matchCallSettle 5 10 3 100 1 10 = ⟨0, 0, 0, 0, 0, false, true⟩ :=
  ⟨by decide,
    (match_call_settle_dust_rule 5 10 3 100 1 10 (by decide) (by decide)
      (by decide) (by decide)).2.1 (by decide) (by decide)⟩

/-- C10 (implicit): in the partial-fill branch of `match(call, settle)`
(`call_receives < call.debt` and `call_pays > 0`), the recomputed
`call_receives = call_pays.multiply_and_round_up(match_price)` — where
`call_pays` was the original `call_receives * match_price` rounded down — never
exceeds the original `call_receives = min(settle.balance, max_settlement,
call.debt)`; hence `settle_pays` never exceeds the smaller of the settler's
balance and the settlement cap. -/
theorem match_call_settle_partial_no_overpay (callDebt callCollateral
    settleBalance maxSettlement mpNum mpDen : ℕ)
    (hn : 0 < mpNum) (hd : 0 < mpDen)
    (hpart : min (min settleBalance maxSettlement) callDebt ≠ callDebt)
    (hpays : mulDown (min (min settleBalance maxSettlement) callDebt)
        mpNum mpDen ≠ 0) :
    (matchCallSettle callDebt callCollateral settleBalance maxSettlement
        mpNum mpDen).covered
      ≤ min (min settleBalance maxSettlement) callDebt ∧
    (matchCallSettle callDebt callCollateral settleBalance maxSettlement
        mpNum mpDen).settlePays
      = (matchCallSettle callDebt callCollateral settleBalance maxSettlement
        mpNum mpDen).covered ∧
    (matchCallSettle callDebt callCollateral settleBalance maxSettlement
        mpNum mpDen).covered ≤ min settleBalance maxSettlement ∧
    (matchCallSettle callDebt callCollateral settleBalance maxSettlement
        mpNum mpDen).covered ≤ callDebt := by
  have hkey : mulUp (mulDown (min (min settleBalance maxSettlement) callDebt)
      mpNum mpDen) mpDen mpNum
        ≤ min (min settleBalance maxSettlement) callDebt :=
    mulUp_mulDown_le hn
  have heval : matchCallSettle callDebt callCollateral settleBalance
      maxSettlement mpNum mpDen =
        ⟨mulUp (mulDown (min (min settleBalance maxSettlement) callDebt)
            mpNum mpDen) mpDen mpNum,
          mulDown (min (min settleBalance maxSettlement) callDebt) mpNum mpDen,
          mulUp (mulDown (min (min settleBalance maxSettlement) callDebt)
            mpNum mpDen) mpDen mpNum,
          mulUp (mulDown (min (min settleBalance maxSettlement) callDebt)
            mpNum mpDen) mpDen mpNum,
          mulDown (min (min settleBalance maxSettlement) callDebt) mpNum mpDen,
          true,
          if mulUp (mulDown (min (min settleBalance maxSettlement) callDebt)
              mpNum mpDen) mpDen mpNum = settleBalance then false
          else (min (min settleBalance maxSettlement) callDebt
              == settleBalance)⟩ := by
    show (if mulDown (min (min settleBalance maxSettlement) callDebt)
        mpNum mpDen = 0 then _ else _) = _
    rw [if_neg hpays, if_neg hpart]
  have hcov : (matchCallSettle callDebt callCollateral settleBalance
      maxSettlement mpNum mpDen).covered
        = mulUp (mulDown (min (min settleBalance maxSettlement) callDebt)
            mpNum mpDen) mpDen mpNum := by
    rw [heval]
  have hsp : (matchCallSettle callDebt callCollateral settleBalance
      maxSettlement mpNum mpDen).settlePays
        = (matchCallSettle callDebt callCollateral settleBalance
            maxSettlement mpNum mpDen).covered := by
    rw [heval]
  refine ⟨hcov ▸ hkey, hsp, ?_, ?_⟩
  · exact le_trans (hcov ▸ hkey) (Nat.min_le_left _ _)
  · exact le_trans (hcov ▸ hkey) (Nat.min_le_right _ _)

/-- Witness for `match_call_settle_partial_no_overpay`: debt 5, settle balance
3, price 1 collateral per 2 debt; the settler surrenders 2 ≤ 3. -/
theorem match_call_settle_partial_no_overpay_witness :
    (0 : ℕ) < 1 ∧
    (matchCallSettle 5 10 3 100 1 2).covered ≤ min (min 3 100) 5 :=
  ⟨by decide,
    (match_call_settle_partial_no_overpay 5 10 3 100 1 2 (by decide)
      (by decide) (by decide) (by decide)).1⟩

/-! ### `match(limit_bid, call_ask, ...)` and the `check_call_orders` fill step

Both convert debt-asset amounts to collateral through two prices: the match
price (`cmNum` collateral per `cmDen` debt; what the limit order receives) and
the call-pays price (`cpNum` per `cpDen`; what the call actually surrenders,
the MSSP-derived price).  `usd_to_buy`, the result of
`call_order_object::get_max_debt_to_cover` (implemented outside the provided
sources), enters both functions as an input. -/

/-- Outcome of a limit×call match: the four transfer amounts, the margin call
fee, whether the pay-nothing-for-nothing early return (bit 1) was taken, and
the `cull_taker` flag.  The embedding returns `none` exactly when the internal
assertion `call_pays >= order_receives` would fire. -/
structure MatchLCResult where
  orderPays : ℕ
  orderReceives : ℕ
  callPays : ℕ
  callReceives : ℕ
  marginCallFee : ℕ
  takerDust : Bool
  cullTaker : Bool
  deriving Repr, DecidableEq

/-- `database::match(limit_order_object bid, call_order_object ask,
match_price, feed_price, MCR, current_MC, call_pays_price)`, with
`usdToBuy = ask.get_max_debt_to_cover(call_pays_price, ...)`. -/
def matchLimitCall (bidForSale usdToBuy cmNum cmDen cpNum cpDen : ℕ) :
    Option MatchLCResult :=
  if usdToBuy > bidForSale then
    -- fill limit order
    let orderReceives := mulDown bidForSale cmNum cmDen
    let callPays := mulDown bidForSale cpNum cpDen
    if orderReceives = 0 then
      some ⟨0, 0, 0, 0, 0, true, false⟩
    else
      let callReceives := mulUp orderReceives cmDen cmNum
      if orderReceives ≤ callPays then
        some ⟨callReceives, orderReceives, callPays, callReceives,
          callPays - orderReceives, false, true⟩
      else none
  else
    -- fill call order
    let callReceives := usdToBuy
    let orderReceives := mulUp usdToBuy cmNum cmDen
    let callPays := mulUp usdToBuy cpNum cpDen
    if orderReceives ≤ callPays then
      some ⟨callReceives, orderReceives, callPays, callReceives,
        callPays - orderReceives, false, false⟩
    else none

/-- The per-pair fill computation inside `database::check_call_orders`
(the margin-call sweep): same formulas as `matchLimitCall`, with the limit
order as maker, so there is no pay-nothing-for-nothing early return.  `none`
exactly when the assertion `call_pays >= limit_receives` would fire. -/
def checkCallOrdersFill (usdForSale usdToBuy cmNum cmDen cpNum cpDen : ℕ) :
    Option MatchLCResult :=
  if usdToBuy > usdForSale then
    -- fill order
    let limitReceives := mulDown usdForSale cmNum cmDen
    let callPays := mulDown usdForSale cpNum cpDen
    let callReceives := mulUp limitReceives cmDen cmNum
    if limitReceives ≤ callPays then
      some ⟨callReceives, limitReceives, callPays, callReceives,
        callPays - limitReceives, false, true⟩
    else none
  else
    -- fill call
    let callReceives := usdToBuy
    let limitReceives := mulUp usdToBuy cmNum cmDen
    let callPays := mulUp usdToBuy cpNum cpDen
    if limitReceives ≤ callPays then
      some ⟨callReceives, limitReceives, callPays, callReceives,
        callPays - limitReceives, false, false⟩
    else none

/-- C3: in every match of a limit bid against a call order — both in
`match(limit, call, ...)` and in the `check_call_orders` sweep — the collateral
the call pays is at least the collateral the limit order receives, so
`margin_call_fee = call_pays - bid_receives ≥ 0` and the internal assertion
`call_pays >= order_receives` never fires, for all amounts and in both the
bid-side-limiting (both round down) and call-side-limiting (both round up)
branches.  The hypothesis is the callers' construction: the call-pays price
yields at least as much collateral per debt unit as the match price
(`MCOP ≤ MSSP`, resp. `margin_call_pays_ratio ≥ 1`), by cross-multiplication. -/
theorem margin_call_fee_nonneg (bidForSale usdToBuy usdForSale₂ usdToBuy₂
    cmNum cmDen cpNum cpDen : ℕ)
    (hcm : 0 < cmDen) (hcp : 0 < cpDen)
    (hprice : cmNum * cpDen ≤ cpNum * cmDen) :
    (matchLimitCall bidForSale usdToBuy cmNum cmDen cpNum cpDen).isSome ∧
    (∀ r, matchLimitCall bidForSale usdToBuy cmNum cmDen cpNum cpDen = some r →
        r.orderReceives ≤ r.callPays ∧
        r.marginCallFee = r.callPays - r.orderReceives) ∧
    (checkCallOrdersFill usdForSale₂ usdToBuy₂ cmNum cmDen cpNum cpDen).isSome ∧
    (∀ r, checkCallOrdersFill usdForSale₂ usdToBuy₂ cmNum cmDen cpNum cpDen
        = some r →
        r.orderReceives ≤ r.callPays ∧
        r.marginCallFee = r.callPays - r.orderReceives) := by
  have hdown : ∀ x, mulDown x cmNum cmDen ≤ mulDown x cpNum cpDen :=
    fun x => mulDown_mono_price hcm hcp hprice
  have hup : ∀ x, mulUp x cmNum cmDen ≤ mulUp x cpNum cpDen :=
    fun x => mulUp_mono_price hcm hcp hprice
  refine ⟨?_, ?_, ?_, ?_⟩
  · unfold matchLimitCall
    dsimp only
    split_ifs with h1 h2 h3 h4
    · rfl
    · rfl
    · exact absurd (hdown bidForSale) h3
    · rfl
    · exact absurd (hup usdToBuy) h4
  · intro r hr
    unfold matchLimitCall at hr
    dsimp only at hr
    split_ifs at hr with h1 h2 h3 h4
    · cases hr; exact ⟨Nat.zero_le _, rfl⟩
    · cases hr; exact ⟨h3, rfl⟩
    · cases hr; exact ⟨h4, rfl⟩
  · unfold checkCallOrdersFill
    dsimp only
    split_ifs with h1 h2 h3
    · rfl
    · exact absurd (hdown usdForSale₂) h2
    · rfl
    · exact absurd (hup usdToBuy₂) h3
  · intro r hr
    unfold checkCallOrdersFill at hr
    dsimp only at hr
    split_ifs at hr with h1 h2 h3
    · cases hr; exact ⟨h2, rfl⟩
    · cases hr; exact ⟨h3, rfl⟩

/-- Witness for `margin_call_fee_nonneg`: bid sells 50 debt, call covers up to
100; match price 21 collateral per 2 debt (10.5), call pays price 11 per 1;
in the sweep the call is the limiting side. -/
theorem margin_call_fee_nonneg_witness :
    (0 : ℕ) < 2 ∧
    (matchLimitCall 50 100 21 2 11 1).isSome := by
  refine ⟨by decide, ?_⟩
  exact (margin_call_fee_nonneg 50 100 30 20 21 2 11 1 (by decide) (by decide)
    (by decide)).1

/-! ### `fill_call_order` and `globally_settle_asset` -/

/-- A call order (CDP): `debt` in the market-issued asset, `collateral` in the
backing asset. -/
structure CallOrder where
  borrower : ℕ
  debt : ℕ
  collateral : ℕ
  deriving Repr, DecidableEq

/-- Effects of `database::fill_call_order(order, pays, receives, ...)` on the
order, the borrower and the asset supply: `remaining` is the surviving call (if
any), `collateralFreed` the collateral credited back to the borrower when the
whole debt is paid, `supplyDelta` the amount by which the MIA `current_supply`
is decremented, `filled` the returned flag. -/
structure FillCallResult where
  remaining : Option CallOrder
  collateralFreed : Option ℕ
  supplyDelta : ℕ
  filled : Bool
  deriving Repr, DecidableEq

/-- `database::fill_call_order`: decrement `debt` by `receives` and
`collateral` by `pays`; if the whole debt is paid, free the remaining
collateral to the borrower and remove the call.  `current_supply` of the MIA
is decremented by `receives` in every case.  The entry assertion
`order.collateral >= pays.amount` is a hypothesis of the theorems below. -/
def fillCallOrder (o : CallOrder) (pays receives : ℕ) : FillCallResult :=
  let debt' := o.debt - receives
  let coll' := o.collateral - pays
  if debt' = 0 then
    ⟨none, some coll', receives, true⟩
  else
    ⟨some ⟨o.borrower, debt', coll'⟩, none, receives, false⟩

/-- The per-call body of the `globally_settle_asset_impl` loop:
`pays = order.get_debt().multiply_and_round_up(settlement_price)`, capped at
the order's collateral; the call is closed via `fill_call_order(order, pays,
order.get_debt(), ...)`.  The accumulator carries `(collateral_gathered,
current_supply)`. -/
def gsStep (spBase spQuote : ℕ) (acc : ℕ × ℕ) (o : CallOrder) : ℕ × ℕ :=
  let pays := if mulUp o.debt spQuote spBase > o.collateral then o.collateral
              else mulUp o.debt spQuote spBase
  let fr := fillCallOrder o pays o.debt
  (acc.1 + pays, acc.2 - fr.supplyDelta)

/-- Per-asset state touched by `globally_settle_asset`: the call orders of the
MIA, its dynamic supply, and its bitasset settlement fields.
`has_settlement() ⇔ settlementPrice ≠ none`. -/
structure GsState where
  calls : List CallOrder
  currentSupply : ℕ
  settlementFund : ℕ
  settlementPrice : Option (ℕ × ℕ)
  deriving Repr, DecidableEq

/-- `database::globally_settle_asset_impl(mia, settlement_price, call_index)`.
The settlement price is the pair `(spBase, spQuote)`: `spBase` in the MIA,
`spQuote` in the backing asset.  `none` models the entry assertion
`!bitasset.has_settlement()` firing.  After all calls are closed the
pre-liquidation supply is written back (see the comment block in the source:
the fills reduced it to 0, "but that is a lie"). -/
def globallySettleAsset (s : GsState) (spBase spQuote : ℕ) : Option GsState :=
  match s.settlementPrice with
  | some _ => none
  | none =>
    let originalSupply := s.currentSupply
    let acc := s.calls.foldl (gsStep spBase spQuote) (0, s.currentSupply)
    let s₁ : GsState := { calls := [], currentSupply := acc.2,
                          settlementFund := acc.1,
                          settlementPrice := some (originalSupply, acc.1) }
    some { s₁ with currentSupply := originalSupply }

theorem gs_foldl_fst (spBase spQuote : ℕ) (l : List CallOrder) (g sup : ℕ) :
    (l.foldl (gsStep spBase spQuote) (g, sup)).1
      = g + (l.map (fun o => min (mulUp o.debt spQuote spBase)
          o.collateral)).sum := by
  induction l generalizing g sup with
  | nil => simp
  | cons o rest ih =>
    have hpays : (if mulUp o.debt spQuote spBase > o.collateral
        then o.collateral else mulUp o.debt spQuote spBase)
          = min (mulUp o.debt spQuote spBase) o.collateral := by
      rcases Nat.lt_or_ge o.collateral (mulUp o.debt spQuote spBase) with h | h
      · rw [if_pos h, Nat.min_eq_right (Nat.le_of_lt h)]
      · rw [if_neg (Nat.not_lt.mpr h), Nat.min_eq_left h]
    simp only [List.foldl_cons, List.map_cons, List.sum_cons, gsStep, hpays,
      ih]
    ring

/-- C4: `globally_settle_asset(mia, settlement_price)` requires that no prior
settlement exists (otherwise it throws), closes every call order of the MIA
paying `pays = min(call.collateral, call.debt.multiply_and_round_up(
settlement_price))` per call, sets `settlement_fund` to the sum of those
payments, and leaves `current_supply` equal to its value before the call (the
supply reduction performed by the fills is undone). -/
theorem globally_settle_asset_spec (s : GsState) (spBase spQuote : ℕ) :
    (s.settlementPrice = none →
      globallySettleAsset s spBase spQuote = some
        { calls := [],
          currentSupply := s.currentSupply,
          settlementFund := (s.calls.map (fun o =>
            min (mulUp o.debt spQuote spBase) o.collateral)).sum,
          settlementPrice := some (s.currentSupply,
            (s.calls.map (fun o =>
              min (mulUp o.debt spQuote spBase) o.collateral)).sum) }) ∧
    (s.settlementPrice ≠ none → globallySettleAsset s spBase spQuote = none) := by
  constructor
  · intro hns
    unfold globallySettleAsset
    rw [hns]
    have h1 := gs_foldl_fst spBase spQuote s.calls 0 s.currentSupply
    simp only at h1 ⊢
    rw [h1]
    simp
  · intro hs
    unfold globallySettleAsset
    match hsp : s.settlementPrice with
    | some p => rfl
    | none => exact absurd hsp hs

/-- Witness for `globally_settle_asset_spec`: two calls (debt 10, collateral
120) and (debt 10, collateral 50), settlement price 1 MIA = 11 backing; the
first pays 110, the second is capped at its whole collateral 50. -/
theorem globally_settle_asset_spec_witness :
    (GsState.mk [⟨7, 10, 120⟩, ⟨8, 10, 50⟩] 20 0 none).settlementPrice
        = none ∧
    globallySettleAsset ⟨[⟨7, 10, 120⟩, ⟨8, 10, 50⟩], 20, 0, none⟩ 1 11
      = some ⟨[], 20, 160, some (20, 160)⟩ :=
  ⟨rfl, by
    have h := (globally_settle_asset_spec
      ⟨[⟨7, 10, 120⟩, ⟨8, 10, 50⟩], 20, 0, none⟩ 1 11).1 rfl
    rw [h]
    decide⟩

/-- C5 counterexample: `fill_call_order` is one of the engine operations the
claim quantifies over, and a call (debt 2, collateral 1) filled with
`pays = 1` (the entire collateral — the entry assertion `collateral >= pays`
holds) and `receives = 1 < debt` survives with `collateral = 0`, so the stated
invariant "never leaves a live call with zero collateral" fails. -/
theorem fill_call_order_zero_collateral_cex :
    (fillCallOrder ⟨0, 2, 1⟩ 1 1).remaining = some ⟨0, 1, 0⟩ ∧
    (1 : ℕ) ≤ 1 ∧ (0 : ℕ) < 1 := by decide

/-- C5 (amended): under the callers' guarantees `pays ≤ collateral` and
`receives ≤ debt`, `fill_call_order` removes the call exactly when the whole
debt is paid (freeing `collateral - pays` to the borrower), and every
surviving call has strictly positive debt — but it may be left with zero
collateral when `pays` equals the entire collateral while `receives < debt`. -/
theorem fill_call_order_live_call_spec (o : CallOrder) (pays receives : ℕ)
    (hpays : pays ≤ o.collateral) (hrecv : receives ≤ o.debt) :
    ((fillCallOrder o pays receives).filled = true ↔ receives = o.debt) ∧
    (∀ o', (fillCallOrder o pays receives).remaining = some o' →
        0 < o'.debt ∧ o'.debt = o.debt - receives ∧
        o'.collateral = o.collateral - pays) ∧
    ((fillCallOrder o pays receives).remaining = none →
        (fillCallOrder o pays receives).collateralFreed
          = some (o.collateral - pays)) := by
  unfold fillCallOrder
  dsimp only
  split_ifs with h
  · have heq : receives = o.debt :=
      Nat.le_antisymm hrecv (Nat.sub_eq_zero_iff_le.mp h)
    refine ⟨iff_of_true rfl heq, ?_, fun _ => rfl⟩
    intro o' ho'
    simp at ho'
  · have hne : receives ≠ o.debt := fun he => h (by rw [he]; exact Nat.sub_self _)
    refine ⟨iff_of_false id hne, ?_, ?_⟩
    · intro o' ho'
      simp at ho'
      rw [← ho']
      exact ⟨Nat.pos_of_ne_zero h, rfl, rfl⟩
    · intro hnone
      simp at hnone

/-- Witness for `fill_call_order_live_call_spec`: the counterexample input —
a call (debt 2, collateral 1) paying its whole collateral for half its debt
survives with positive debt. -/
theorem fill_call_order_live_call_spec_witness :
    (1 : ℕ) ≤ 1 ∧ (1 : ℕ) ≤ 2 ∧
    ((fillCallOrder ⟨0, 2, 1⟩ 1 1).filled = true ↔ (1 : ℕ) = 2) :=
  ⟨by decide, by decide,
    (fill_call_order_live_call_spec ⟨0, 2, 1⟩ 1 1 (by decide) (by decide)).1⟩

/-! ### Market fees and `asset_settle` after a global settlement -/

/-- `GRAPHENE_100_PERCENT`: percentages are expressed in basis points. -/
def GRAPHENE_100_PERCENT : ℕ := 10000

/-- `detail::calculate_percent(value, percent)`: `value * percent / 10000` in a
128-bit intermediate, truncated.  (Its overflow assertion against
`GRAPHENE_MAX_SHARE_SUPPLY` cannot trigger at the in-range amounts the claims
below are about and is not modelled.) -/
def calculate_percent (value percent : ℕ) : ℕ :=
  value * percent / GRAPHENE_100_PERCENT

/-- The fee-relevant options of an asset
(`asset_object::options` fields used by `calculate_market_fee`). -/
structure AssetFeeParams where
  chargesMarketFees : Bool
  marketFeePercent : ℕ
  takerFeePercent : Option ℕ
  maxMarketFee : ℕ
  deriving Repr, DecidableEq

/-- `database::calculate_market_fee(trade_asset, trade_amount, is_maker)`. -/
def calculateMarketFee (p : AssetFeeParams) (amount : ℕ) (isMaker : Bool) :
    ℕ :=
  if ¬p.chargesMarketFees then 0
  else if isMaker ∧ p.marketFeePercent = 0 then 0
  else if ¬isMaker ∧ p.takerFeePercent = some 0 then 0
  else
    let feePercent := if isMaker then p.marketFeePercent
                      else p.takerFeePercent.getD p.marketFeePercent
    let value := calculate_percent amount feePercent
    if value > p.maxMarketFee then p.maxMarketFee else value

theorem calculateMarketFee_zero (p : AssetFeeParams) (isMaker : Bool) :
    calculateMarketFee p 0 isMaker = 0 := by
  unfold calculateMarketFee calculate_percent
  split_ifs <;> simp_all

/-- The bitasset / dynamic-data state read by `asset_settle_evaluator::do_apply`
when the asset has an active settlement, with the settlement price as the pair
`(spBase` MIA`, spQuote` backing`)` and the fee options of the backing asset
(the market fee on the payout is charged in the collateral asset). -/
structure SettleAssetState where
  currentSupply : ℕ
  settlementFund : ℕ
  spBase : ℕ
  spQuote : ℕ
  isPredictionMarket : Bool
  backingFees : AssetFeeParams
  deriving Repr, DecidableEq

/-- Outcome of a post-global-settlement `asset_settle`: `pays` is debited from
the settler and burned from `current_supply`, `credited` is the backing asset
paid out of the fund to the settler (after market fees). -/
structure SettleOutcome where
  pays : ℕ
  credited : ℕ
  newFund : ℕ
  newSupply : ℕ
  deriving Repr, DecidableEq

/-- `asset_settle_evaluator::do_apply`, branch `bitasset.has_settlement()`:
`settled_amount = op.amount * settlement_price` (round down), overridden to the
whole remaining fund when `op.amount == current_supply`; otherwise asserted
`<= settlement_fund`.  Throws (`none`) when the resulting amount is zero and
the asset is not a prediction market.  `pays` is recomputed by
`multiply_and_round_up` unless the whole supply is being settled or the
settled amount is zero. -/
def assetSettlePostGlobal (s : SettleAssetState) (opAmount : ℕ) :
    Option SettleOutcome :=
  let settled0 := mulDown opAmount s.spQuote s.spBase
  let settled1 := if opAmount = s.currentSupply then s.settlementFund
                  else settled0
  if opAmount ≠ s.currentSupply ∧ s.settlementFund < settled1 then none
  else if settled1 = 0 ∧ ¬s.isPredictionMarket then none
  else
    let pays := if opAmount ≠ s.currentSupply ∧ settled1 ≠ 0
                then mulUp settled1 s.spBase s.spQuote else opAmount
    if 0 < settled1 then
      let fee := calculateMarketFee s.backingFees settled1 false
      some ⟨pays, settled1 - fee, s.settlementFund - settled1,
        s.currentSupply - pays⟩
    else
      some ⟨pays, 0, s.settlementFund, s.currentSupply - pays⟩

/-- C7 counterexample: state with `current_supply = 3`, `settlement_fund = 1`,
settlement price 10 MIA per 1 backing; settling the entire supply of 3 gives
`op.amount * settlement_price = ⌊3/10⌋ = 0` and the asset is not a prediction
market, yet the operation succeeds (crediting the whole fund) instead of
failing as the claim states, because the zero test is applied after
`settled_amount` has been overridden to the remaining fund. -/
theorem asset_settle_post_global_cex :
    mulDown 3 1 10 = 0 ∧
    assetSettlePostGlobal ⟨3, 1, 10, 1, false, ⟨false, 0, none, 0⟩⟩ 3
      = some ⟨3, 1, 0, 0⟩ := by decide

/-- C7 (amended): under invariant 5 of the spec
(`op.amount * settlement_price ≤ settlement_fund`), a post-global-settlement
`asset_settle` fails exactly when the effective settled amount — the whole
remaining `settlement_fund` when `op.amount == current_supply`, otherwise
`op.amount * settlement_price` rounded down — is zero and the asset is not a
prediction market; and when `op.amount` equals the entire current supply the
settler is credited the entire remaining fund minus market fees, the fund
dropping to zero. -/
theorem asset_settle_post_global_spec (s : SettleAssetState) (opAmount : ℕ)
    (hinv : mulDown opAmount s.spQuote s.spBase ≤ s.settlementFund) :
    (assetSettlePostGlobal s opAmount = none ↔
      ((if opAmount = s.currentSupply then s.settlementFund
        else mulDown opAmount s.spQuote s.spBase) = 0 ∧
        s.isPredictionMarket = false)) ∧
    (opAmount = s.currentSupply →
      ∀ r, assetSettlePostGlobal s opAmount = some r →
        r.credited = s.settlementFund
            - calculateMarketFee s.backingFees s.settlementFund false ∧
        r.newFund = 0 ∧ r.pays = opAmount) ∧
    (opAmount ≠ s.currentSupply →
      ∀ r, assetSettlePostGlobal s opAmount = some r →
        r.credited = mulDown opAmount s.spQuote s.spBase
            - calculateMarketFee s.backingFees
                (mulDown opAmount s.spQuote s.spBase) false) := by
  by_cases hsup : opAmount = s.currentSupply
  · subst hsup
    unfold assetSettlePostGlobal
    dsimp only
    rw [if_pos (rfl : s.currentSupply = s.currentSupply)]
    rw [if_neg (show ¬(s.currentSupply ≠ s.currentSupply ∧
        s.settlementFund < s.settlementFund) from fun h => h.1 rfl)]
    rw [if_neg (show ¬(s.currentSupply ≠ s.currentSupply ∧ s.settlementFund ≠ 0)
        from fun h => h.1 rfl)]
    by_cases hz : s.settlementFund = 0
    · rw [hz]
      by_cases hpm : s.isPredictionMarket
      · rw [if_neg (show ¬((0 : ℕ) = 0 ∧ ¬s.isPredictionMarket = true)
            from fun h => h.2 hpm), if_neg (by omega : ¬(0 : ℕ) < 0)]
        refine ⟨by simp [hpm], ?_, fun h => absurd rfl h⟩
        intro _ r hr
        simp only [Option.some_inj] at hr
        rw [← hr, calculateMarketFee_zero]
        exact ⟨rfl, rfl, rfl⟩
      · rw [if_pos ⟨rfl, by simp [hpm]⟩]
        refine ⟨by simp [hpm], ?_, fun h => absurd rfl h⟩
        intro _ r hr
        exact absurd hr (by simp)
    · rw [if_neg (show ¬(s.settlementFund = 0 ∧ ¬s.isPredictionMarket = true)
          from fun h => hz h.1),
        if_pos (Nat.pos_of_ne_zero hz)]
      refine ⟨by simp [hz], ?_, fun h => absurd rfl h⟩
      intro _ r hr
      simp only [Option.some_inj] at hr
      rw [← hr]
      exact ⟨rfl, Nat.sub_self _, rfl⟩
  · unfold assetSettlePostGlobal
    dsimp only
    rw [if_neg hsup]
    rw [if_neg (show ¬(opAmount ≠ s.currentSupply ∧
        s.settlementFund < mulDown opAmount s.spQuote s.spBase)
        from fun h => absurd h.2 (Nat.not_lt.mpr hinv))]
    by_cases hz : mulDown opAmount s.spQuote s.spBase = 0
    · rw [hz]
      by_cases hpm : s.isPredictionMarket
      · rw [if_neg (show ¬((0 : ℕ) = 0 ∧ ¬s.isPredictionMarket = true)
            from fun h => h.2 hpm),
          if_neg (show ¬(opAmount ≠ s.currentSupply ∧ (0 : ℕ) ≠ 0)
            from fun h => h.2 rfl),
          if_neg (by omega : ¬(0 : ℕ) < 0)]
        refine ⟨by simp [hpm, hsup], fun h => absurd h hsup, ?_⟩
        intro _ r hr
        simp only [Option.some_inj] at hr
        rw [← hr, calculateMarketFee_zero]
      · rw [if_pos ⟨rfl, by simp [hpm]⟩]
        refine ⟨by simp [hpm, hsup], fun h => absurd h hsup, ?_⟩
        intro _ r hr
        exact absurd hr (by simp)
    · rw [if_neg (show ¬(mulDown opAmount s.spQuote s.spBase = 0 ∧
          ¬s.isPredictionMarket = true) from fun h => hz h.1),
        if_pos (Nat.pos_of_ne_zero hz), if_pos ⟨hsup, hz⟩]
      refine ⟨by simp [hz, hsup], fun h => absurd h hsup, ?_⟩
      intro _ r hr
      simp only [Option.some_inj] at hr
      rw [← hr]

/-- Witness for `asset_settle_post_global_spec`: supply 100, fund 50, price
10 MIA per 1 backing; settling 30 of 100 credits `⌊30/10⌋ = 3` (no fees). -/
theorem asset_settle_post_global_spec_witness :
    mulDown 30 1 10 ≤ 50 ∧
    (assetSettlePostGlobal ⟨100, 50, 10, 1, false, ⟨false, 0, none, 0⟩⟩ 30
        = none ↔
      ((if (30 : ℕ) = 100 then (50 : ℕ) else mulDown 30 1 10) = 0 ∧
        false = false)) :=
  ⟨by decide,
    (asset_settle_post_global_spec ⟨100, 50, 10, 1, false, ⟨false, 0, none, 0⟩⟩
      30 (by decide)).1⟩

/-! ### `revive_bitasset` and the feed-publication revival path -/

/-- Bitasset state read by `database::revive_bitasset` and by the revival
check in `asset_publish_feeds_evaluator::do_apply`.
`hasSettlement` models `has_settlement() ⇔ !settlement_price.is_null()`;
`feedIsNull` models `current_feed.settlement_price.is_null()`;
`(cmcBase, cmcQuote)` are the amounts (backing, MIA) of
`current_maintenance_collateralization`. -/
structure BitassetRevState where
  isMarketIssued : Bool
  hasSettlement : Bool
  settlementFund : ℕ
  currentSupply : ℕ
  isPredictionMarket : Bool
  feedIsNull : Bool
  cmcBase : ℕ
  cmcQuote : ℕ
  deriving Repr, DecidableEq

/-- `database::revive_bitasset` together with
`database::_cancel_bids_and_revive_mpa`: asserts the asset is market-issued,
has a settlement, is not a prediction market and has a non-null feed; when the
supply is zero it additionally asserts the fund is zero; then clears
`settlement_price` (to the null price) and `settlement_fund`.  `none` models a
failing assertion. -/
def reviveBitasset (s : BitassetRevState) : Option BitassetRevState :=
  if ¬s.isMarketIssued then none
  else if ¬s.hasSettlement then none
  else if s.isPredictionMarket then none
  else if s.feedIsNull then none
  else if s.currentSupply = 0 ∧ s.settlementFund ≠ 0 then none
  else some { s with hasSettlement := false, settlementFund := 0 }

/-- The revival check of `asset_publish_feeds_evaluator::do_apply` (run once
the median feed changed): if the asset has globally settled and the new feed
is valid, revive it when the current supply is zero, or when the settlement
fund's collateralization — the price `(settlement_fund backing) /
(current_supply MIA)` — exceeds `current_maintenance_collateralization`
(cross-multiplied comparison).  `none` means no revival happens. -/
def publishFeedReviveCheck (s : BitassetRevState) : Option BitassetRevState :=
  if s.hasSettlement ∧ ¬s.feedIsNull then
    if s.currentSupply = 0 ∨
        s.cmcBase * s.currentSupply < s.settlementFund * s.cmcQuote then
      reviveBitasset s
    else none
  else none

/-- C8: a bitasset is revived (settlement cleared) only when all of the
following hold: it has an active settlement, it is not a prediction market,
the current feed is valid (non-null settlement price), and either the current
supply is zero or the settlement fund's collateralization exceeds the
maintenance collateral requirement; and on success `settlement_price` is set
to the null price and `settlement_fund` to 0. -/
theorem revive_bitasset_spec (s : BitassetRevState) :
    ∀ s', publishFeedReviveCheck s = some s' →
      s.hasSettlement = true ∧
      s.isPredictionMarket = false ∧
      s.feedIsNull = false ∧
      (s.currentSupply = 0 ∨
        s.cmcBase * s.currentSupply < s.settlementFund * s.cmcQuote) ∧
      s'.hasSettlement = false ∧ s'.settlementFund = 0 := by
  intro s' h
  unfold publishFeedReviveCheck at h
  split_ifs at h with h1 h2
  unfold reviveBitasset at h
  split_ifs at h with h3 h4 h5 h6 h7
  simp only [Option.some_inj] at h
  refine ⟨?_, ?_, ?_, h2, ?_, ?_⟩
  · simpa using h1.1
  · simpa using h5
  · simpa using h6
  · rw [← h]
  · rw [← h]

/-- Witness for `revive_bitasset_spec`: a settled, non-prediction bitasset
with zero supply and zero fund and a valid feed is revived. -/
theorem revive_bitasset_spec_witness :
    publishFeedReviveCheck ⟨true, true, 0, 0, false, false, 7, 5⟩
        = some ⟨true, false, 0, 0, false, false, 7, 5⟩ ∧
    (⟨true, false, 0, 0, false, false, 7, 5⟩ : BitassetRevState).hasSettlement
        = false :=
  ⟨by decide,
    (revive_bitasset_spec ⟨true, true, 0, 0, false, false, 7, 5⟩
      ⟨true, false, 0, 0, false, false, 7, 5⟩ (by decide)).2.2.2.2.1⟩

/-! ### `cancel_limit_order`: deferred-fee routing -/

/-- Fee-routing effects of `database::cancel_limit_order(order,
create_virtual_op, skip_cancel_fee)`: `sellerPayFee` is the core cancel fee
routed to the seller's statistics (`pay_fee`, feeding the referral program),
`accumulatedFees` the amount added to the paid-fee asset's `accumulated_fees`,
`refundedPaid` the paid-fee asset refunded to the seller, `feePoolReturn` the
core returned to that asset's fee pool, `refundedCore` the core deferred fee
refunded to the seller (core-fee case), and `(vopFeeAmount, vopFeeIsCore)` the
virtual operation's `fee` field. -/
structure CancelOutcome where
  sellerPayFee : ℕ
  accumulatedFees : ℕ
  refundedPaid : ℕ
  feePoolReturn : ℕ
  refundedCore : ℕ
  vopFeeAmount : ℕ
  vopFeeIsCore : Bool
  deriving Repr, DecidableEq

/-- `database::cancel_limit_order`, deferred-fee part.  `deferredFee` is the
order's core deferred fee, `deferredPaidFee` the amount originally paid in a
non-core asset (0 when the fee was paid in core), `cancelCoreRaw` the
cancellation fee from the fee schedule.  The refund of `amount_for_sale()` to
the seller is common to all branches and not repeated here. -/
def cancelLimitOrder (createVirtualOp skipCancelFee : Bool)
    (deferredFee deferredPaidFee cancelCoreRaw : ℕ) : CancelOutcome :=
  if createVirtualOp ∧ ¬skipCancelFee ∧ 0 < deferredFee then
    -- cap the fee at the deferred core fee
    let cancelCore := if deferredFee < cancelCoreRaw then deferredFee
                      else cancelCoreRaw
    if 0 < cancelCore then
      let fee1 := deferredFee - cancelCore
      if deferredPaidFee = 0 then
        ⟨cancelCore, 0, 0, 0, fee1, cancelCore, true⟩
      else
        -- to_deduct = round_up(paid_fee * cancel_core / deferred_fee)
        let toDeduct := (deferredPaidFee * cancelCore + deferredFee - 1)
            / deferredFee
        ⟨cancelCore, toDeduct, deferredPaidFee - toDeduct, fee1, 0,
          toDeduct, false⟩
    else
      if deferredPaidFee = 0 then ⟨0, 0, 0, 0, deferredFee, 0, true⟩
      else ⟨0, 0, deferredPaidFee, deferredFee, 0, 0, false⟩
  else
    if deferredPaidFee = 0 then ⟨0, 0, 0, 0, deferredFee, 0, true⟩
    else ⟨0, 0, deferredPaidFee, deferredFee, 0, 0, false⟩

/-- C9: cancelling an order whose deferred fee was originally paid in a
non-core asset, with a positive core cancellation fee (capped at
`deferred_fee`), deducts exactly
`to_deduct = ceil(deferred_paid_fee * cancel_core / deferred_fee)` into that
asset's `accumulated_fees`, refunds `deferred_paid_fee - to_deduct` of that
asset to the seller, returns the remaining core `deferred_fee` (after
deducting `cancel_core`) to that asset's fee pool, and sets the virtual
operation's `fee` field to `to_deduct` of that asset.  The rounded-up quotient
is the `mulUp` of the paid fee by `cancel_core / deferred_fee`. -/
theorem cancel_limit_order_noncore_fee_spec
    (deferredFee deferredPaidFee cancelCoreRaw : ℕ)
    (hdf : 0 < deferredFee) (hpaid : deferredPaidFee ≠ 0)
    (hcc : 0 < if deferredFee < cancelCoreRaw then deferredFee
           else cancelCoreRaw) :
    cancelLimitOrder true false deferredFee deferredPaidFee cancelCoreRaw =
      ⟨(if deferredFee < cancelCoreRaw then deferredFee else cancelCoreRaw),
        mulUp deferredPaidFee
          (if deferredFee < cancelCoreRaw then deferredFee else cancelCoreRaw)
          deferredFee,
        deferredPaidFee - mulUp deferredPaidFee
          (if deferredFee < cancelCoreRaw then deferredFee else cancelCoreRaw)
          deferredFee,
        deferredFee -
          (if deferredFee < cancelCoreRaw then deferredFee else cancelCoreRaw),
        0,
        mulUp deferredPaidFee
          (if deferredFee < cancelCoreRaw then deferredFee else cancelCoreRaw)
          deferredFee,
        false⟩ := by
  unfold cancelLimitOrder
  rw [if_pos ⟨rfl, by simp, hdf⟩]
  dsimp only
  rw [if_pos hcc, if_neg hpaid]
  rfl

/-- Witness for `cancel_limit_order_noncore_fee_spec`, the spec's scenario 6:
`deferred_fee = 100` core, `deferred_paid_fee = 50` OTHER, cancel fee 30 core:
OTHER accumulates `ceil(50*30/100) = 15`, 35 OTHER is refunded, 70 core goes
to OTHER's fee pool, and the virtual op's fee is 15 OTHER. -/
theorem cancel_limit_order_noncore_fee_spec_witness :
    (0 : ℕ) < 100 ∧
    cancelLimitOrder true false 100 50 30 = ⟨30, 15, 35, 70, 0, 15, false⟩ := by
  refine ⟨by decide, ?_⟩
  rw [cancel_limit_order_noncore_fee_spec 100 50 30 (by decide) (by decide)
    (by decide)]
  decide

/-! ### `apply_order`: the front-of-book short circuit

The `by_price` limit order index is ordered by the composite key
`(sell_price, id)` with `std::greater<price>` then `std::less<object_id>`.
`price::operator<` compares base asset id, then quote asset id, then the
cross-multiplied ratio — so all orders of one asset pair are contiguous in the
index, most aggressive price first.  The book is modelled as the index's
traversal order: a list sorted (`Pairwise`) by that key. -/

/-- An order as it sits in the `by_price` index: object id and the unreduced
`sell_price` (selling `pBaseAsset`, receiving `pQuoteAsset`). -/
structure BookOrder where
  id : ℕ
  pBaseAmt : ℕ
  pBaseAsset : ℕ
  pQuoteAmt : ℕ
  pQuoteAsset : ℕ
  deriving Repr, DecidableEq

/-- Modelled from the spec: `price::operator<` (ordering by
cross-multiplication, after the asset ids of both legs). -/
def priceLtB (a b : BookOrder) : Bool :=
  if a.pBaseAsset < b.pBaseAsset then true
  else if b.pBaseAsset < a.pBaseAsset then false
  else if a.pQuoteAsset < b.pQuoteAsset then true
  else if b.pQuoteAsset < a.pQuoteAsset then false
  else b.pQuoteAmt * a.pBaseAmt < a.pQuoteAmt * b.pBaseAmt

/-- The `by_price` index key order: descending `sell_price`
(`std::greater<price>`), ties broken by ascending id. -/
def bookKeyLt (a b : BookOrder) : Bool :=
  if priceLtB b a then true
  else if priceLtB a b then false
  else a.id < b.id

/-- The front-of-book test at the top of `database::apply_order`:
`lower_bound((new_order.sell_price, new_order.id))` in the `by_price` index,
step back one position; blocked iff that predecessor sells the same asset
pair.  On a sorted book the elements strictly before the new order's key are
exactly the `takeWhile` prefix, and the predecessor is its last element. -/
def applyOrderBlocked (book : List BookOrder) (o : BookOrder) : Bool :=
  match (book.takeWhile (fun e => bookKeyLt e o)).getLast? with
  | none => false
  | some p => (p.pBaseAsset == o.pBaseAsset) && (p.pQuoteAsset == o.pQuoteAsset)

/-- The short-circuit step of `database::apply_order`: `some false` is the
early `return false` (the new order is left on the book, nothing else is
touched); `none` means the function goes on to the matching loops. -/
def applyOrderEarlyReturn (book : List BookOrder) (o : BookOrder) :
    Option Bool :=
  if applyOrderBlocked book o then some false else none

theorem priceLtB_eq_true_iff (a b : BookOrder) :
    priceLtB a b = true ↔
      (a.pBaseAsset < b.pBaseAsset ∨
        (a.pBaseAsset = b.pBaseAsset ∧ a.pQuoteAsset < b.pQuoteAsset) ∨
        (a.pBaseAsset = b.pBaseAsset ∧ a.pQuoteAsset = b.pQuoteAsset ∧
          b.pQuoteAmt * a.pBaseAmt < a.pQuoteAmt * b.pBaseAmt)) := by
  unfold priceLtB
  split_ifs with h1 h2 h3 h4 <;> simp <;> omega

/-- Case analysis on the index key order: an earlier key has a strictly
greater price, or an equivalent price and a smaller id. -/
theorem bookKeyLt_cases (a b : BookOrder) (h : bookKeyLt a b = true) :
    priceLtB b a = true ∨
      (priceLtB b a = false ∧ priceLtB a b = false ∧ a.id < b.id) := by
  unfold bookKeyLt at h
  cases hba : priceLtB b a
  · cases hab : priceLtB a b
    · rw [hba, hab] at h
      simp at h
      exact Or.inr ⟨rfl, rfl, h⟩
    · rw [hba, hab] at h
      simp at h
  · exact Or.inl rfl

theorem bookKeyLt_asymm (a b : BookOrder) (h1 : bookKeyLt a b = true)
    (h2 : bookKeyLt b a = true) : False := by
  rcases bookKeyLt_cases a b h1 with hba | ⟨hba, hab, hid⟩
  · rcases bookKeyLt_cases b a h2 with hab | ⟨_, hba', _⟩
    · rw [priceLtB_eq_true_iff] at hba hab
      omega
    · rw [hba'] at hba
      exact absurd hba (by decide)
  · rcases bookKeyLt_cases b a h2 with hab' | ⟨_, _, hid'⟩
    · rw [hab'] at hab
      exact absurd hab (by decide)
    · omega

/-- In a book sorted by the index key, every order whose key precedes the new
order's key lies in the `takeWhile` prefix used by the front-of-book check. -/
theorem mem_takeWhile_of_sorted (l : List BookOrder) (o b : BookOrder)
    (hp : l.Pairwise (fun x y => bookKeyLt x y = true))
    (ho : o ∈ l) (hb : b ∈ l) (hbo : bookKeyLt b o = true) :
    b ∈ l.takeWhile (fun e => bookKeyLt e o) := by
  induction l with
  | nil => simp at ho
  | cons a t ih =>
    rw [List.pairwise_cons] at hp
    obtain ⟨ha, hpt⟩ := hp
    rcases List.mem_cons.mp hb with hba | hbt
    · subst hba
      rw [show (b :: t).takeWhile (fun e => bookKeyLt e o)
          = b :: t.takeWhile (fun e => bookKeyLt e o) by
        simp [List.takeWhile_cons, hbo]]
      exact List.mem_cons_self b _
    · rcases List.mem_cons.mp ho with hoa | hot
      · exact absurd hbo (by
          subst hoa
          intro hcon
          exact bookKeyLt_asymm o b (ha b hbt) hcon)
      · have hpa : bookKeyLt a o = true := ha o hot
        rw [show (a :: t).takeWhile (fun e => bookKeyLt e o)
            = a :: t.takeWhile (fun e => bookKeyLt e o) by
          simp [List.takeWhile_cons, hpa]]
        exact List.mem_cons_of_mem a (ih hpt hot hbt)

/-- Keys earlier in the index have lexicographically no-smaller asset-id pairs
(the index sorts prices descending, and asset ids dominate the comparison). -/
theorem bookKeyLt_id_le (a b : BookOrder) (h : bookKeyLt a b = true) :
    b.pBaseAsset < a.pBaseAsset ∨
    (b.pBaseAsset = a.pBaseAsset ∧ b.pQuoteAsset ≤ a.pQuoteAsset) := by
  rcases bookKeyLt_cases a b h with hba | ⟨_, hab, _⟩
  · rw [priceLtB_eq_true_iff] at hba
    omega
  · have hnab : ¬(priceLtB a b = true) := by rw [hab]; decide
    rw [priceLtB_eq_true_iff] at hnab
    omega

/-- C2: `apply_order(new_limit)` returns `false` and performs no matching
whenever some other limit order on the same side of the book sells the same
asset pair at a strictly better price (cross-multiplied): the front-of-book
check finds a same-pair predecessor and the function returns before any
matching.  Hypotheses: the book is the `by_price` index (sorted by its key),
the new order is on it, and `b` is a same-pair order with a strictly better
price. -/
theorem apply_order_front_of_book (book : List BookOrder) (o b : BookOrder)
    (hsorted : book.Pairwise (fun x y => bookKeyLt x y = true))
    (ho : o ∈ book) (hb : b ∈ book)
    (hsell : b.pBaseAsset = o.pBaseAsset)
    (hrecv : b.pQuoteAsset = o.pQuoteAsset)
    (hbetter : b.pQuoteAmt * o.pBaseAmt < o.pQuoteAmt * b.pBaseAmt) :
    applyOrderEarlyReturn book o = some false := by
  have hkey : bookKeyLt b o = true := by
    unfold bookKeyLt
    rw [if_pos ?_]
    unfold priceLtB
    rw [if_neg (by omega), if_neg (by omega), if_neg (by omega),
      if_neg (by omega)]
    exact decide_eq_true hbetter
  have hbl : b ∈ book.takeWhile (fun e => bookKeyLt e o) :=
    mem_takeWhile_of_sorted book o b hsorted ho hb hkey
  have hne : book.takeWhile (fun e => bookKeyLt e o) ≠ [] :=
    List.ne_nil_of_mem hbl
  have hg : (book.takeWhile (fun e => bookKeyLt e o)).getLast?
      = some ((book.takeWhile (fun e => bookKeyLt e o)).getLast hne) :=
    List.getLast?_eq_getLast_of_ne_nil hne
  have hp0key : bookKeyLt
      ((book.takeWhile (fun e => bookKeyLt e o)).getLast hne) o = true := by
    have := List.mem_takeWhile_imp (List.getLast_mem hne)
    simpa using this
  have hblast : b = (book.takeWhile (fun e => bookKeyLt e o)).getLast hne ∨
      bookKeyLt b ((book.takeWhile (fun e => bookKeyLt e o)).getLast hne)
        = true := by
    have hpl : (book.takeWhile (fun e => bookKeyLt e o)).Pairwise
        (fun x y => bookKeyLt x y = true) :=
      hsorted.sublist (List.takeWhile_sublist _)
    have hsplit := List.dropLast_append_getLast hne
    rw [← hsplit] at hbl hpl
    rcases List.mem_append.mp hbl with hdl | hsing
    · right
      rw [List.pairwise_append] at hpl
      exact hpl.2.2 b hdl _ (List.mem_singleton_self _)
    · left
      simpa using hsing
  have hid : ((book.takeWhile (fun e => bookKeyLt e o)).getLast
        hne).pBaseAsset = o.pBaseAsset ∧
      ((book.takeWhile (fun e => bookKeyLt e o)).getLast
        hne).pQuoteAsset = o.pQuoteAsset := by
    have h1 := bookKeyLt_id_le _ _ hp0key
    rcases hblast with heq | hlt
    · rw [← heq]
      exact ⟨hsell, hrecv⟩
    · have h2 := bookKeyLt_id_le _ _ hlt
      constructor <;> omega
  unfold applyOrderEarlyReturn applyOrderBlocked
  rw [hg]
  simp [hid.1, hid.2]

/-- Witness for `apply_order_front_of_book`: a two-order book of the same pair
(asset 1 sold for asset 2); the resting order with the better price (2 base
per quote vs 1 per 1) blocks the new one. -/
theorem apply_order_front_of_book_witness :
    applyOrderEarlyReturn
        [⟨4, 2, 1, 1, 2⟩, ⟨9, 1, 1, 1, 2⟩] ⟨9, 1, 1, 1, 2⟩ = some false :=
  apply_order_front_of_book [⟨4, 2, 1, 1, 2⟩, ⟨9, 1, 1, 1, 2⟩]
    ⟨9, 1, 1, 1, 2⟩ ⟨4, 2, 1, 1, 2⟩ (by decide) (by decide) (by decide)
    (by decide) (by decide) (by decide)

end RevPop
